import Mathlib

/-!
Verification development for the workflow-catalog service.

The Python sources (app/services/parser.py, app/database.py) are embedded
shallowly: dictionaries become structures, Python sets become lists that are
deduplicated on insertion and sorted before they are returned, floats become
exact rationals, the SQLite table becomes a list of rows, and the two calls to
datetime.utcnow() in parse_workflow become two explicit string parameters.
-/

namespace Catalog

/-! ## String helpers (Python string operations) -/

/-- Model of Python str.lower for a single character (ASCII range), which is
also the case folding SQLite applies in LIKE. Mirrors Char.toLower. -/
def lowerChar (c : Char) : Char :=
  if 65 ≤ c.toNat ∧ c.toNat ≤ 90 then Char.ofNat (c.toNat + 32) else c

/-- Model of Python str.lower on a whole string. -/
def strLower (s : String) : String :=
  ⟨s.data.map lowerChar⟩

/-- Model of the Python substring test: pat in s. -/
def strContains (s pat : String) : Bool :=
  s.data.tails.any (fun t => pat.data.isPrefixOf t)

/-- Model of Python str.startswith. -/
def strStartsWith (s pre : String) : Bool :=
  pre.data.isPrefixOf s.data

/-- Model of Python str.slice s[:n] (by code points, as Python slices). -/
def strTake (s : String) (n : Nat) : String :=
  ⟨s.data.take n⟩

/-- Model of Python len() on a string (code points). -/
def strLength (s : String) : Nat :=
  s.data.length

/-- Model of Python str.split(sep) for a one-character separator. -/
def splitOnChar (c : Char) : List Char → List (List Char)
  | [] => [[]]
  | d :: rest =>
    let r := splitOnChar c rest
    if d = c then [] :: r
    else
      match r with
      | [] => [[d]]
      | x :: xs => (d :: x) :: xs

/-- Model of Python str.split(sep) on strings, one-character separator. -/
def strSplitOn (s : String) (c : Char) : List String :=
  (splitOnChar c s.data).map (⟨·⟩)

/-- One left-to-right scan of Python str.replace, with explicit fuel (the
scan consumes at least one character per step, so fuel s.length suffices;
the pattern is never empty where this is used). -/
def replaceAux (old new : List Char) : Nat → List Char → List Char
  | _, [] => []
  | 0, s => s
  | fuel + 1, d :: rest =>
    if old.isPrefixOf (d :: rest) then
      new ++ replaceAux old new fuel ((d :: rest).drop old.length)
    else d :: replaceAux old new fuel rest

/-- Model of Python str.replace(old, new) for a non-empty pattern. -/
def strReplace (s old new : String) : String :=
  ⟨replaceAux old.data new.data s.data.length s.data⟩

/-- Insertion into a Python set modelled as a duplicate-free list. -/
def insertNoDup (l : List String) (x : String) : List String :=
  if x ∈ l then l else l ++ [x]

/-- Boolean lexicographic comparison of char lists by code point, the order
Python uses to compare strings. -/
def leChars : List Char → List Char → Bool
  | [], _ => true
  | _ :: _, [] => false
  | a :: as, b :: bs =>
    if a.toNat < b.toNat then true
    else if b.toNat < a.toNat then false
    else leChars as bs

/-- Boolean string comparison by code points (Python string order). -/
def strLeb (a b : String) : Bool :=
  leChars a.data b.data

/-- Model of Python sorted() on a collection of strings. -/
def sortStr (l : List String) : List String :=
  List.insertionSort (fun a b => strLeb a b = true) l

/-- Model of Python round(x, 2) (exact on every score this code produces). -/
def round2 (q : ℚ) : ℚ :=
  (round (q * 100) : ℤ) / 100

/-! ## Data model of the parser (app/services/parser.py) -/

/-- One workflow node as the parser reads it: its type string, the textual
content of its parameters (used only for sticky notes), and the keys of its
credentials map, in iteration order. -/
structure WorkflowNode where
  type : String
  content : String
  credentials : List String
  deriving DecidableEq

/-- Result dictionary of WorkflowParser._analyze_nodes; also used as the
accumulator of its single pass, before the three lists are sorted. -/
structure NodeAnalysis where
  integrations : List String
  node_types : List String
  has_webhook : Bool
  has_schedule : Bool
  has_local_ai : Bool
  credential_types : List String
  deriving DecidableEq

/-- One entry of requirements['credentials'] built by _extract_requirements.
The third field models the entry's 'local' key (a Lean keyword). -/
structure Credential where
  type : String
  required : Bool
  is_local : Bool
  description : Option String
  deriving DecidableEq

/-- Result dictionary of WorkflowParser._extract_requirements. -/
structure Requirements where
  credentials : List Credential
  services : List String
  external_apis : List String
  min_n8n_version : String
  deriving DecidableEq

/-- Result dictionary of WorkflowParser._analyze_compatibility. -/
structure Compatibility where
  local_ai : Bool
  requires_external_api : Bool
  works_offline : Bool
  pozi_compatible : Bool
  status : String
  compatibility_score : ℚ
  deriving DecidableEq

/-- Nested metadata dictionary of the workflow record. -/
structure WorkflowMetadata where
  node_count : Nat
  integrations : List String
  node_types : List String
  has_webhook : Bool
  has_schedule : Bool
  estimated_runtime : String
  deriving DecidableEq

/-- Nested stats dictionary of the workflow record. -/
structure WorkflowStats where
  popularity_score : Int
  import_count : Int
  success_rate : ℚ
  avg_setup_time : Option String
  deriving DecidableEq

/-- The full workflow record dictionary built by parse_workflow. -/
structure Workflow where
  id : String
  name : String
  description : Option String
  category : String
  subcategory : String
  difficulty : String
  author : String
  source_repo : String
  source_url : Option String
  json_path : String
  tags : List String
  department : Option String
  use_cases : List String
  metadata : WorkflowMetadata
  requirements : Requirements
  compatibility : Compatibility
  stats : WorkflowStats
  created_at : String
  updated_at : String
  last_synced : Option String
  deriving DecidableEq

/-- The input JSON document as parse_workflow reads it. The description field
is doubly optional: none models an absent key, some none a key bound to null
(Python distinguishes them with an explicit key-presence test). -/
structure WorkflowData where
  name : Option String
  description : Option (Option String)
  nodes : List WorkflowNode
  tags : List String
  deriving DecidableEq

/-- Known local services in Pozi AI Studio (WorkflowParser.LOCAL_SERVICES). -/
def LOCAL_SERVICES : List String :=
  ["ollama", "postgres", "qdrant", "supabase", "neo4j",
   "langfuse", "flowise", "redis", "minio", "clickhouse"]

/-- Node types that indicate local AI usage (WorkflowParser.LOCAL_AI_NODES). -/
def LOCAL_AI_NODES : List String :=
  ["@n8n/n8n-nodes-langchain.agent",
   "@n8n/n8n-nodes-langchain.chainLlm",
   "@n8n/n8n-nodes-langchain.chainSummarization",
   "@n8n/n8n-nodes-langchain.chainRetrievalQa",
   "@n8n/n8n-nodes-langchain.lmChatOllama",
   "@n8n/n8n-nodes-langchain.lmOllama",
   "@n8n/n8n-nodes-langchain.embeddingsOllama"]

/-- Integration-name extraction of one node in _analyze_nodes: strip the
known namespace (Python str.replace removes every occurrence), or take the
last dot-separated part of an @n8n/ node type, lower-cased either way. -/
def stepIntegrations (acc : List String) (node_type : String) : List String :=
  if strStartsWith node_type "n8n-nodes-base." then
    insertNoDup acc (strLower (strReplace node_type "n8n-nodes-base." ""))
  else if strStartsWith node_type "@n8n/" then
    if 1 < (strSplitOn node_type '.').length then
      insertNoDup acc (strLower ((strSplitOn node_type '.').getLastD ""))
    else acc
  else acc

/-- One iteration of the node loop in _analyze_nodes. -/
def analyzeStep (acc : NodeAnalysis) (node : WorkflowNode) : NodeAnalysis where
  integrations := stepIntegrations acc.integrations node.type
  node_types := insertNoDup acc.node_types node.type
  has_webhook := acc.has_webhook || strContains (strLower node.type) "webhook"
  has_schedule := acc.has_schedule || strContains (strLower node.type) "schedule"
    || strContains (strLower node.type) "cron"
  has_local_ai := acc.has_local_ai || LOCAL_AI_NODES.contains node.type
  credential_types :=
    node.credentials.foldl (fun l k => insertNoDup l (strLower k)) acc.credential_types

/-- WorkflowParser._analyze_nodes: one pass over the node list, then each of
the three collected sets is returned as a sorted list. -/
def analyze_nodes (nodes : List WorkflowNode) : NodeAnalysis :=
  let a := nodes.foldl analyzeStep ⟨[], [], false, false, false, []⟩
  ⟨sortStr a.integrations, sortStr a.node_types, a.has_webhook, a.has_schedule,
   a.has_local_ai, sortStr a.credential_types⟩

/-- One iteration of the credential loop in _extract_requirements. -/
def requirementsStep (acc : List Credential × List String × List String)
    (cred_type : String) : List Credential × List String × List String :=
  let is_local := LOCAL_SERVICES.any (fun svc => strContains cred_type svc)
  let credentials := acc.1 ++ [⟨cred_type, true, is_local, none⟩]
  let services :=
    if is_local then
      LOCAL_SERVICES.foldl
        (fun s svc => if strContains cred_type svc then insertNoDup s svc else s) acc.2.1
    else acc.2.1
  let external_apis := if is_local then acc.2.2 else insertNoDup acc.2.2 cred_type
  (credentials, services, external_apis)

/-- WorkflowParser._extract_requirements. -/
def extract_requirements (na : NodeAnalysis) : Requirements :=
  let r := na.credential_types.foldl requirementsStep ([], [], [])
  ⟨r.1, sortStr r.2.1, sortStr r.2.2, "1.0.0"⟩

/-- WorkflowParser._analyze_compatibility. Scores are exact rationals; the
status tier and pozi flag are derived from the unrounded score, the stored
score field is rounded to two decimals as in the code. -/
def analyze_compatibility (req : Requirements) (na : NodeAnalysis) : Compatibility :=
  let local_ai := na.has_local_ai
  let requires_external_api : Bool := 0 < req.external_apis.length
  let works_offline := !requires_external_api
  let score : ℚ := 1
  let score := if requires_external_api then score - 3/10 else score
  let score := if !local_ai && requires_external_api then score - 3/10 else score
  let score := if req.services.length = 0 then score - 2/10 else score
  let status :=
    if 8/10 ≤ score then "fully_compatible"
    else if 1/2 ≤ score then "partially_compatible"
    else if requires_external_api then "requires_external"
    else "incompatible"
  let pozi_compatible : Bool := 1/2 ≤ score
  ⟨local_ai, requires_external_api, works_offline, pozi_compatible, status, round2 score⟩

/-- WorkflowParser._extract_description. -/
def extract_description (data : WorkflowData) : Option String :=
  match data.description with
  | some d => d
  | none =>
    match data.nodes.find? (fun node =>
        node.type == "n8n-nodes-base.stickyNote" && 20 < strLength node.content) with
    | some node => some (strTake node.content 500)
    | none => none

/-- WorkflowParser._categorize_workflow. -/
def categorize_workflow (name : String) (description : Option String)
    (na : NodeAnalysis) : String × String :=
  let text := strLower (name ++ " " ++ description.getD "")
  let integrations := na.integrations
  if ["ai", "rag", "llm", "gpt", "agent", "langchain"].any (fun t => strContains text t) then
    if strContains text "rag" || strContains text "retrieval" then
      ("AI & Machine Learning", "RAG & Document Processing")
    else if strContains text "agent" then ("AI & Machine Learning", "AI Agents")
    else ("AI & Machine Learning", "General AI")
  else if ["gmail", "email", "slack", "telegram", "discord", "whatsapp"].any
      (fun svc => integrations.contains svc) then
    if integrations.contains "gmail" || strContains text "email" then
      ("Communication & Messaging", "Email")
    else if integrations.contains "slack" then ("Communication & Messaging", "Slack")
    else if integrations.contains "telegram" then ("Communication & Messaging", "Telegram")
    else ("Communication & Messaging", "General")
  else if ["data", "analytics", "database", "sql", "etl"].any (fun t => strContains text t) then
    ("Data & Analytics", "Data Processing")
  else if ["business", "productivity", "automation", "workflow"].any
      (fun t => strContains text t) then
    ("Business & Productivity", "Automation")
  else ("Utilities & Tools", "General")

/-- WorkflowParser._determine_difficulty. -/
def determine_difficulty (na : NodeAnalysis) : String :=
  let node_count := na.node_types.length
  if node_count ≤ 5 then "beginner"
  else if node_count ≤ 15 then "intermediate"
  else "advanced"

/-- Keyword table of WorkflowParser._extract_tags, in dictionary order. -/
def tag_keywords : List (String × List String) :=
  [("ai", ["ai", "artificial intelligence", "machine learning"]),
   ("rag", ["rag", "retrieval", "augmented generation"]),
   ("automation", ["automation", "automate", "automatic"]),
   ("email", ["email", "gmail", "mail"]),
   ("chat", ["chat", "messaging", "conversation"]),
   ("document", ["document", "pdf", "file"]),
   ("data", ["data", "database", "sql"]),
   ("local", ["local", "offline", "self-hosted"])]

/-- WorkflowParser._extract_tags. -/
def extract_tags (data : WorkflowData) (name : String) (description : Option String)
    (na : NodeAnalysis) : List String :=
  let tags := data.tags.foldl insertNoDup []
  let text := strLower (name ++ " " ++ description.getD "")
  let tags := tag_keywords.foldl
    (fun acc p =>
      if p.2.any (fun kw => strContains text kw) then insertNoDup acc p.1 else acc) tags
  let tags := (na.integrations.take 5).foldl insertNoDup tags
  (sortStr tags).take 10

/-- WorkflowParser._determine_department. -/
def determine_department (category : String) : Option String :=
  if strContains category "AI" then some "Engineering"
  else if strContains category "Communication" then some "Operations"
  else if strContains category "Data" then some "Analytics"
  else if strContains category "Business" then some "Executive"
  else none

/-- Keyword table of WorkflowParser._extract_use_cases, in dictionary order. -/
def use_case_patterns : List (String × List String) :=
  [("Document Q&A", ["document", "q&a", "question", "answer"]),
   ("Email Automation", ["email", "gmail", "automate", "respond"]),
   ("Data Processing", ["data", "process", "transform", "etl"]),
   ("Chat Bot", ["chat", "bot", "conversation", "assistant"]),
   ("Content Generation", ["generate", "create", "content", "write"]),
   ("Research Assistant", ["research", "analyze", "summarize"])]

/-- WorkflowParser._extract_use_cases. -/
def extract_use_cases (name : String) (description : Option String) : List String :=
  let text := strLower (name ++ " " ++ description.getD "")
  let use_cases := use_case_patterns.foldl
    (fun acc p =>
      if 2 ≤ p.2.countP (fun kw => strContains text kw) then acc ++ [p.1] else acc) []
  use_cases.take 3

/-- WorkflowParser._estimate_runtime. -/
def estimate_runtime (na : NodeAnalysis) : String :=
  let node_count := na.node_types.length
  if node_count ≤ 5 then "< 1 minute"
  else if node_count ≤ 15 then "1-5 minutes"
  else "5+ minutes"

/-- WorkflowParser._extract_author. -/
def extract_author (source_repo : String) : String :=
  if strContains source_repo "/" then (strSplitOn source_repo '/').headD source_repo
  else source_repo

/-- WorkflowParser.parse_workflow on an already decoded document. The fresh
uuid, the two successive datetime.utcnow() readings (created first, updated
second) and the file-name stem are passed in explicitly. -/
def parse_workflow (wid t_created t_updated : String) (json_path stem source_repo : String)
    (data : WorkflowData) : Workflow :=
  let name := data.name.getD stem
  let description := extract_description data
  let nodes := data.nodes
  let node_analysis := analyze_nodes nodes
  let cat := categorize_workflow name description node_analysis
  let difficulty := determine_difficulty node_analysis
  let requirements := extract_requirements node_analysis
  let compatibility := analyze_compatibility requirements node_analysis
  let tags := extract_tags data name description node_analysis
  { id := wid
    name := name
    description := description
    category := cat.1
    subcategory := cat.2
    difficulty := difficulty
    author := extract_author source_repo
    source_repo := source_repo
    source_url := none
    json_path := json_path
    tags := tags
    department := determine_department cat.1
    use_cases := extract_use_cases name description
    metadata := ⟨nodes.length, node_analysis.integrations, node_analysis.node_types,
                 node_analysis.has_webhook, node_analysis.has_schedule,
                 estimate_runtime node_analysis⟩
    requirements := requirements
    compatibility := compatibility
    stats := ⟨0, 0, 0, none⟩
    created_at := t_created
    updated_at := t_updated
    last_synced := none }

/-! ## JSON serialization (Python json.dumps with its defaults: ensure_ascii
and the ", " item separator), as used by Database.insert_workflow. -/

/-- Hex digit character (lowercase), as printed by Python '%04x'. -/
def hexDig (k : Nat) : Char :=
  if k < 10 then Char.ofNat (48 + k) else Char.ofNat (87 + k)

/-- Four-digit lowercase hex rendering of n, as in a JSON escape. -/
def toHex4 (n : Nat) : List Char :=
  [hexDig (n / 4096 % 16), hexDig (n / 256 % 16), hexDig (n / 16 % 16), hexDig (n % 16)]

/-- Escape of one character in a JSON string, following Python's
py_encode_basestring_ascii: named escapes, verbatim printable ASCII, and
unicode escapes (a surrogate pair above the basic plane). -/
def escapeChar (c : Char) : List Char :=
  if c = '"' then ['\\', '"']
  else if c = '\\' then ['\\', '\\']
  else if c = '\x08' then ['\\', 'b']
  else if c = '\x0c' then ['\\', 'f']
  else if c = '\n' then ['\\', 'n']
  else if c = '\r' then ['\\', 'r']
  else if c = '\t' then ['\\', 't']
  else if 0x20 ≤ c.toNat ∧ c.toNat ≤ 0x7e then [c]
  else if c.toNat < 0x10000 then '\\' :: 'u' :: toHex4 c.toNat
  else
    let n := c.toNat - 0x10000
    ('\\' :: 'u' :: toHex4 (0xd800 + n / 0x400)) ++ ('\\' :: 'u' :: toHex4 (0xdc00 + n % 0x400))

/-- Escape of a whole JSON string body. -/
def escapeStr : List Char → List Char
  | [] => []
  | c :: cs => escapeChar c ++ escapeStr cs

/-- JSON rendering of one string, quotes included. -/
def jsonString (s : String) : String :=
  ⟨'"' :: escapeStr s.data ++ ['"']⟩

/-- Body of a JSON array of strings, with the default ", " separator. -/
def dumpBody : List String → List Char
  | [] => []
  | e :: es =>
    '"' :: escapeStr e.data ++ ['"'] ++
      (match es with
       | [] => []
       | _ :: _ => ',' :: ' ' :: dumpBody es)

/-- Model of Python json.dumps on a list of strings. -/
def jsonDumpsList (l : List String) : String :=
  ⟨'[' :: dumpBody l ++ [']']⟩

/-- JSON rendering of null or a string. -/
def jsonNullOrString : Option String → String
  | none => "null"
  | some s => jsonString s

/-- Model of Python json.dumps on one credential dictionary (keys in the
insertion order used by _extract_requirements). -/
def encodeCred (c : Credential) : List Char :=
  "\x7b\"type\": ".data ++ (jsonString c.type).data ++
  ", \"required\": ".data ++ (if c.required then "true" else "false").data ++
  ", \"local\": ".data ++ (if c.is_local then "true" else "false").data ++
  ", \"description\": ".data ++ (jsonNullOrString c.description).data ++ ['}']

/-- Body of the JSON array of credential dictionaries. -/
def credBody : List Credential → List Char
  | [] => []
  | c :: cs =>
    encodeCred c ++
      (match cs with
       | [] => []
       | _ :: _ => ',' :: ' ' :: credBody cs)

/-- Model of Python json.dumps on requirements['credentials']. -/
def jsonDumpsCreds (creds : List Credential) : String :=
  ⟨'[' :: credBody creds ++ [']']⟩

/-! ## Data model of the store (app/database.py). The workflows table is a
list of rows; list-valued fields are stored as JSON text and booleans as 0/1,
exactly as insert_workflow serializes them. -/

/-- One row of the workflows table (rowid is not part of SELECT *). -/
structure Row where
  id : String
  name : String
  description : Option String
  category : String
  subcategory : String
  difficulty : String
  author : String
  source_repo : String
  source_url : Option String
  json_path : String
  tags : String
  department : Option String
  use_cases : String
  node_count : Nat
  integrations : String
  node_types : String
  has_webhook : Int
  has_schedule : Int
  estimated_runtime : String
  credentials : String
  services : String
  external_apis : String
  min_n8n_version : String
  local_ai : Int
  requires_external_api : Int
  works_offline : Int
  pozi_compatible : Int
  compatibility_status : String
  compatibility_score : ℚ
  popularity_score : Int
  import_count : Int
  success_rate : ℚ
  avg_setup_time : Option String
  created_at : String
  updated_at : String
  last_synced : Option String
  deriving DecidableEq

/-- Python truthiness of a boolean turned into the stored 0/1 flag. -/
def boolToInt (b : Bool) : Int :=
  if b then 1 else 0

/-- The tuple of column values Database.insert_workflow binds for a record. -/
def encodeRow (w : Workflow) : Row where
  id := w.id
  name := w.name
  description := w.description
  category := w.category
  subcategory := w.subcategory
  difficulty := w.difficulty
  author := w.author
  source_repo := w.source_repo
  source_url := w.source_url
  json_path := w.json_path
  tags := jsonDumpsList w.tags
  department := w.department
  use_cases := jsonDumpsList w.use_cases
  node_count := w.metadata.node_count
  integrations := jsonDumpsList w.metadata.integrations
  node_types := jsonDumpsList w.metadata.node_types
  has_webhook := boolToInt w.metadata.has_webhook
  has_schedule := boolToInt w.metadata.has_schedule
  estimated_runtime := w.metadata.estimated_runtime
  credentials := jsonDumpsCreds w.requirements.credentials
  services := jsonDumpsList w.requirements.services
  external_apis := jsonDumpsList w.requirements.external_apis
  min_n8n_version := w.requirements.min_n8n_version
  local_ai := boolToInt w.compatibility.local_ai
  requires_external_api := boolToInt w.compatibility.requires_external_api
  works_offline := boolToInt w.compatibility.works_offline
  pozi_compatible := boolToInt w.compatibility.pozi_compatible
  compatibility_status := w.compatibility.status
  compatibility_score := w.compatibility.compatibility_score
  popularity_score := w.stats.popularity_score
  import_count := w.stats.import_count
  success_rate := w.stats.success_rate
  avg_setup_time := w.stats.avg_setup_time
  created_at := w.created_at
  updated_at := w.updated_at
  last_synced := w.last_synced

/-- Database.insert_workflow: the INSERT commits and returns True unless the
id primary key is already taken, in which case the exception handler reports
False and the transaction leaves the table unchanged. -/
def insert_workflow (db : List Row) (w : Workflow) : List Row × Bool :=
  if db.any (fun row => row.id == w.id) then (db, false)
  else (db ++ [encodeRow w], true)

/-- Database.get_workflow: the first row matching the id, if any. -/
def get_workflow (db : List Row) (workflow_id : String) : Option Row :=
  db.find? (fun row => row.id == workflow_id)

/-- One step of the SQL LIKE match (SQLite semantics: % matches any sequence,
an underscore matches any single character, plain characters compare
ASCII-case-insensitively). Pattern is the first argument. -/
def likeMatch : List Char → List Char → Bool
  | [], t => t.isEmpty
  | c :: ps, t =>
    if c = '%' then t.tails.any (fun suf => likeMatch ps suf)
    else
      match t with
      | [] => false
      | d :: ts => (c = '_' || lowerChar c = lowerChar d) && likeMatch ps ts

/-- The LIKE pattern search_workflows builds for one requested tag. -/
def tagPattern (tag : String) : String :=
  "%\"" ++ tag ++ "\"%"

/-- The WHERE clause of Database.search_workflows as a row predicate. The
full-text MATCH of the black-box FTS index is an explicit predicate
parameter; all other conditions mirror the SQL. -/
def rowMatches (fts : String → Row → Bool) (query category difficulty : Option String)
    (local_ai_only : Bool) (tags : List String) (row : Row) : Bool :=
  (match query with
   | none => true
   | some q => fts q row) &&
  (match category with
   | none => true
   | some c => row.category == c) &&
  (match difficulty with
   | none => true
   | some d => row.difficulty == d) &&
  (!local_ai_only || row.local_ai == 1) &&
  tags.all (fun tag => likeMatch (tagPattern tag).data row.tags.data)

/-- The ORDER BY clause of search_workflows: popularity_score descending,
then name ascending. -/
def searchOrder (a b : Row) : Prop :=
  b.popularity_score < a.popularity_score ∨
    (a.popularity_score = b.popularity_score ∧ strLeb a.name b.name = true)

instance : DecidableRel searchOrder := by
  unfold searchOrder
  infer_instance

/-- Database.search_workflows: filter, order, then LIMIT ? OFFSET ?. -/
def search_workflows (fts : String → Row → Bool) (db : List Row)
    (query category difficulty : Option String) (local_ai_only : Bool)
    (tags : List String) (limit offset : Nat) : List Row :=
  ((List.insertionSort searchOrder
      (db.filter (rowMatches fts query category difficulty local_ai_only tags))).drop
    offset).take limit

/-- Database.update_workflow_stats: partial update of the given stat fields
plus updated_at on every row matching the id; when neither stat is given no
statement is executed at all. -/
def update_workflow_stats (db : List Row) (workflow_id : String)
    (import_count : Option Int) (success_rate : Option ℚ) (t_update : String) : List Row :=
  if import_count = none ∧ success_rate = none then db
  else
    db.map fun row =>
      if row.id = workflow_id then
        { row with
          import_count := import_count.getD row.import_count
          success_rate := success_rate.getD row.success_rate
          updated_at := t_update }
      else row

/-! ## A decoder for the JSON string escaping, used to prove that the
serialization of records is injective, and a class of plain characters on
which LIKE-based tag filtering is exact. -/

/-- Value of one lowercase hex digit character. -/
def hexVal (c : Char) : Nat :=
  if 48 ≤ c.toNat ∧ c.toNat ≤ 57 then c.toNat - 48
  else if 97 ≤ c.toNat ∧ c.toNat ≤ 102 then c.toNat - 87
  else 0

/-- Decoding of the second half of a surrogate pair: n is the value of the
high surrogate already read. -/
def stepUPair (n : Nat) : List Char → Option (Char × List Char)
  | '\\' :: 'u' :: g1 :: g2 :: g3 :: g4 :: r3 =>
    let m := 4096 * hexVal g1 + 256 * hexVal g2 + 16 * hexVal g3 + hexVal g4
    if 0xdc00 ≤ m ∧ m ≤ 0xdfff then
      some (Char.ofNat (0x10000 + 0x400 * (n - 0xd800) + (m - 0xdc00)), r3)
    else none
  | _ => none

/-- Decoding of a unicode escape after the backslash-u: four hex digits,
then a second escape when the value is in the high-surrogate range. -/
def stepU : List Char → Option (Char × List Char)
  | h1 :: h2 :: h3 :: h4 :: r2 =>
    let n := 4096 * hexVal h1 + 256 * hexVal h2 + 16 * hexVal h3 + hexVal h4
    if 0xd800 ≤ n ∧ n ≤ 0xdbff then stepUPair n r2
    else some (Char.ofNat n, r2)
  | _ => none

/-- Decoding of one escape sequence (the character after a backslash and
the rest of the text): the named escapes, or a unicode escape, possibly a
surrogate pair. -/
def stepEsc (e : Char) (r : List Char) : Option (Char × List Char) :=
  if e = '"' then some ('"', r)
  else if e = '\\' then some ('\\', r)
  else if e = 'b' then some ('\x08', r)
  else if e = 'f' then some ('\x0c', r)
  else if e = 'n' then some ('\n', r)
  else if e = 'r' then some ('\r', r)
  else if e = 't' then some ('\t', r)
  else if e = 'u' then stepU r
  else none

/-- Decoding of one character of a JSON string body: an unescaped quote is
the terminator (decodes to nothing), a backslash starts an escape, any
other character stands for itself. -/
def step : List Char → Option (Char × List Char)
  | [] => none
  | c :: r =>
    if c = '"' then none
    else if c = '\\' then
      match r with
      | [] => none
      | e :: r2 => stepEsc e r2
    else some (c, r)

/-- Characters on which the LIKE-based tag filter is exact: printable
ASCII, no LIKE wildcard, no quote, no backslash, no comma, and no upper
case letter (LIKE compares ASCII case-insensitively). -/
def plainChar (c : Char) : Bool :=
  if 0x20 ≤ c.toNat ∧ c.toNat ≤ 0x7e ∧ c ≠ '%' ∧ c ≠ '_' ∧ c ≠ '"' ∧ c ≠ '\\' ∧ c ≠ ',' ∧
      ¬(65 ≤ c.toNat ∧ c.toNat ≤ 90) then true
  else false

/-! ## Concrete inputs used by witnesses and counterexamples -/

/-- A workflow with one node whose only credential type is external. -/
def nodes1 : List WorkflowNode :=
  [⟨"n8n-nodes-base.httpRequest", "", ["fooapi"]⟩]

/-- A workflow with one node whose type string has upper case letters. -/
def nodesU : List WorkflowNode :=
  [⟨"FOO", "", []⟩]

/-- A workflow with three nodes of three distinct types. -/
def nodes3 : List WorkflowNode :=
  [⟨"a", "", []⟩, ⟨"b", "", []⟩, ⟨"c", "", []⟩]

/-- An input document with a name, a null description and no nodes. -/
def data0 : WorkflowData :=
  ⟨some "W", some none, [], []⟩

/-- A concrete catalog record with tag list ["x"]. -/
def w0 : Workflow where
  id := "wf-1"
  name := "Test workflow"
  description := none
  category := "Utilities & Tools"
  subcategory := "General"
  difficulty := "beginner"
  author := "alice"
  source_repo := "alice/repo"
  source_url := none
  json_path := "data/wf1.json"
  tags := ["x"]
  department := none
  use_cases := []
  metadata := ⟨1, [], ["n8n-nodes-base.noOp"], false, false, "< 1 minute"⟩
  requirements := ⟨[], [], [], "1.0.0"⟩
  compatibility := ⟨false, false, true, true, "fully_compatible", 1⟩
  stats := ⟨0, 0, 0, none⟩
  created_at := "2024-01-01T00:00:00"
  updated_at := "2024-01-01T00:00:00"
  last_synced := none

/-- The stored row of w0. -/
def row0 : Row :=
  encodeRow w0

/-! ## Lemmas about characters, lowering and the string order -/

theorem toNat_ofNat_valid {m : Nat} (h : m.isValidChar) : (Char.ofNat m).toNat = m := by
  unfold Char.ofNat
  rw [dif_pos h]
  rfl

theorem lowerChar_toNat (c : Char) :
    (lowerChar c).toNat = if 65 ≤ c.toNat ∧ c.toNat ≤ 90 then c.toNat + 32 else c.toNat := by
  unfold lowerChar
  split_ifs with h
  · exact toNat_ofNat_valid (Or.inl (by omega))
  · rfl

theorem lowerChar_eq_self (c : Char) (hc : ¬(65 ≤ c.toNat ∧ c.toNat ≤ 90)) :
    lowerChar c = c := by
  unfold lowerChar
  rw [if_neg hc]

theorem lowerChar_idem (c : Char) : lowerChar (lowerChar c) = lowerChar c := by
  by_cases hc : 65 ≤ c.toNat ∧ c.toNat ≤ 90
  · have h : (lowerChar c).toNat = c.toNat + 32 := by rw [lowerChar_toNat, if_pos hc]
    exact lowerChar_eq_self _ (by omega)
  · rw [lowerChar_eq_self c hc]
    exact lowerChar_eq_self c hc

theorem strLower_idem (s : String) : strLower (strLower s) = strLower s := by
  unfold strLower
  apply congrArg String.mk
  show (s.data.map lowerChar).map lowerChar = s.data.map lowerChar
  rw [List.map_map]
  exact List.map_congr_left (fun c _ => lowerChar_idem c)

theorem charEq_of_toNat_eq {a b : Char} (h : a.toNat = b.toNat) : a = b :=
  Char.ext (UInt32.ext h)

theorem leChars_iff_not_lt : ∀ as bs : List Char, leChars as bs = true ↔ ¬ bs < as := by
  intro as
  induction as with
  | nil =>
    intro bs
    constructor
    · intro _ h
      cases h
    · intro _
      rfl
  | cons a as ih =>
    intro bs
    cases bs with
    | nil =>
      constructor
      · intro h
        cases h
      · intro h
        exact absurd List.Lex.nil h
    | cons b bs =>
      show (if a.toNat < b.toNat then true else if b.toNat < a.toNat then false
              else leChars as bs) = true ↔ ¬ (b :: bs) < (a :: as)
      by_cases h1 : a.toNat < b.toNat
      · rw [if_pos h1]
        simp only [true_iff]
        intro h
        cases h with
        | cons htail => omega
        | rel hba => exact absurd (show b.toNat < a.toNat from hba) (by omega)
      · rw [if_neg h1]
        by_cases h2 : b.toNat < a.toNat
        · rw [if_pos h2]
          exact iff_of_false (by simp) (not_not_intro (List.Lex.rel h2))
        · rw [if_neg h2]
          rw [ih bs]
          have hab : b = a := charEq_of_toNat_eq (by omega)
          subst hab
          constructor
          · intro h hlt
            cases hlt with
            | cons htail => exact h htail
            | rel hbb => exact absurd (show b.toNat < b.toNat from hbb) (by omega)
          · intro h htail
            exact h (List.Lex.cons htail)

theorem strLeb_iff (a b : String) : strLeb a b = true ↔ a ≤ b := by
  show leChars a.data b.data = true ↔ a ≤ b
  rw [leChars_iff_not_lt]
  exact not_congr String.lt_iff_toList_lt.symm

theorem leChars_total : ∀ as bs : List Char, leChars as bs = true ∨ leChars bs as = true := by
  intro as
  induction as with
  | nil =>
    intro bs
    exact Or.inl rfl
  | cons a as ih =>
    intro bs
    cases bs with
    | nil => exact Or.inr rfl
    | cons b bs =>
      show (if a.toNat < b.toNat then true else if b.toNat < a.toNat then false
              else leChars as bs) = true ∨
           (if b.toNat < a.toNat then true else if a.toNat < b.toNat then false
              else leChars bs as) = true
      by_cases h1 : a.toNat < b.toNat
      · rw [if_pos h1]
        exact Or.inl rfl
      · by_cases h2 : b.toNat < a.toNat
        · refine Or.inr ?_
          rw [if_pos h2]
        · rw [if_neg h1, if_neg h2, if_neg h2, if_neg h1]
          exact ih bs

theorem leChars_trans :
    ∀ as bs cs : List Char, leChars as bs = true → leChars bs cs = true →
      leChars as cs = true := by
  intro as
  induction as with
  | nil =>
    intro bs cs _ _
    rfl
  | cons a as ih =>
    intro bs cs h1 h2
    cases bs with
    | nil => exact absurd h1 (by simp [leChars])
    | cons b bs =>
      cases cs with
      | nil => exact absurd h2 (by simp [leChars])
      | cons c cs =>
        revert h1 h2
        show (if a.toNat < b.toNat then true else if b.toNat < a.toNat then false
                else leChars as bs) = true →
             (if b.toNat < c.toNat then true else if c.toNat < b.toNat then false
                else leChars bs cs) = true →
             (if a.toNat < c.toNat then true else if c.toNat < a.toNat then false
                else leChars as cs) = true
        split_ifs <;> intro h1 h2 <;>
          first
          | rfl
          | omega
          | contradiction
          | exact ih bs cs h1 h2

instance strLebTotal : IsTotal String (fun a b => strLeb a b = true) :=
  ⟨fun a b => leChars_total a.data b.data⟩

instance strLebTrans : IsTrans String (fun a b => strLeb a b = true) :=
  ⟨fun a b c => leChars_trans a.data b.data c.data⟩

theorem sortStr_perm (l : List String) : List.Perm (sortStr l) l :=
  List.perm_insertionSort _ l

theorem sortStr_sorted (l : List String) : List.Sorted (· ≤ ·) (sortStr l) := by
  have h := List.sorted_insertionSort (fun a b => strLeb a b = true) l
  exact h.imp (fun hab => (strLeb_iff _ _).mp hab)

theorem mem_sortStr {s : String} {l : List String} : s ∈ sortStr l ↔ s ∈ l :=
  (sortStr_perm l).mem_iff

/-! ## Invariants of the node-analysis pass -/

theorem mem_insertNoDup {l : List String} {x y : String} :
    y ∈ insertNoDup l x ↔ y ∈ l ∨ y = x := by
  unfold insertNoDup
  split_ifs with h
  · constructor
    · exact Or.inl
    · rintro (hy | rfl)
      · exact hy
      · exact h
  · simp [List.mem_append]

theorem nodup_insertNoDup {l : List String} (x : String) (h : l.Nodup) :
    (insertNoDup l x).Nodup := by
  unfold insertNoDup
  split_ifs with hx
  · exact h
  · simp [List.nodup_append, h, hx]

theorem credFold_nodup (ks : List String) : ∀ l : List String, l.Nodup →
    (ks.foldl (fun l k => insertNoDup l (strLower k)) l).Nodup := by
  induction ks with
  | nil => exact fun l h => h
  | cons k ks ih => exact fun l h => ih _ (nodup_insertNoDup _ h)

theorem credFold_lower (ks : List String) : ∀ l : List String,
    (∀ s ∈ l, strLower s = s) →
    ∀ s ∈ ks.foldl (fun l k => insertNoDup l (strLower k)) l, strLower s = s := by
  induction ks with
  | nil => exact fun l h => h
  | cons k ks ih =>
    intro l h
    apply ih
    intro s hs
    rcases mem_insertNoDup.mp hs with hs | rfl
    · exact h s hs
    · exact strLower_idem k

theorem stepIntegrations_nodup {acc : List String} (t : String) (h : acc.Nodup) :
    (stepIntegrations acc t).Nodup := by
  unfold stepIntegrations
  split_ifs <;> first | exact nodup_insertNoDup _ h | exact h

theorem stepIntegrations_lower {acc : List String} (t : String)
    (h : ∀ s ∈ acc, strLower s = s) :
    ∀ s ∈ stepIntegrations acc t, strLower s = s := by
  unfold stepIntegrations
  split_ifs <;>
    first
    | exact h
    | (intro s hs
       rcases mem_insertNoDup.mp hs with hs | rfl
       · exact h s hs
       · exact strLower_idem _)

theorem analyzeFold_nodup (nodes : List WorkflowNode) :
    ∀ acc : NodeAnalysis, acc.integrations.Nodup → acc.node_types.Nodup →
      acc.credential_types.Nodup →
      (nodes.foldl analyzeStep acc).integrations.Nodup ∧
        (nodes.foldl analyzeStep acc).node_types.Nodup ∧
        (nodes.foldl analyzeStep acc).credential_types.Nodup := by
  induction nodes with
  | nil => exact fun acc h1 h2 h3 => ⟨h1, h2, h3⟩
  | cons node nodes ih =>
    intro acc h1 h2 h3
    exact ih (analyzeStep acc node) (stepIntegrations_nodup _ h1)
      (nodup_insertNoDup _ h2) (credFold_nodup _ _ h3)

theorem analyzeFold_lower (nodes : List WorkflowNode) :
    ∀ acc : NodeAnalysis, (∀ s ∈ acc.integrations, strLower s = s) →
      (∀ s ∈ acc.credential_types, strLower s = s) →
      (∀ s ∈ (nodes.foldl analyzeStep acc).integrations, strLower s = s) ∧
        (∀ s ∈ (nodes.foldl analyzeStep acc).credential_types, strLower s = s) := by
  induction nodes with
  | nil => exact fun acc h1 h2 => ⟨h1, h2⟩
  | cons node nodes ih =>
    intro acc h1 h2
    exact ih (analyzeStep acc node) (stepIntegrations_lower _ h1) (credFold_lower _ _ h2)

theorem analyze_nodes_nodup (nodes : List WorkflowNode) :
    (analyze_nodes nodes).integrations.Nodup ∧ (analyze_nodes nodes).node_types.Nodup ∧
      (analyze_nodes nodes).credential_types.Nodup := by
  have h := analyzeFold_nodup nodes ⟨[], [], false, false, false, []⟩
    List.nodup_nil List.nodup_nil List.nodup_nil
  exact ⟨((sortStr_perm _).symm.nodup h.1),
    ((sortStr_perm _).symm.nodup h.2.1),
    ((sortStr_perm _).symm.nodup h.2.2)⟩

/-! ## Claims C3, C6, C7 -/

/-- C3 counterexample: the claim says every element of the analyzer's
node_types list is lower-cased, but _analyze_nodes adds node type strings to
node_types verbatim: for a node of type "FOO" the list contains "FOO", which
is not lower-cased. -/
theorem c3_counterexample :
    "FOO" ∈ (analyze_nodes nodesU).node_types ∧ strLower "FOO" ≠ "FOO" := by
  constructor
  · decide
  · decide

/-- C3 (amended): for every list of workflow nodes, every element of the
FeatureSet's integrations and credential_types lists produced by the node
analyzer is lower-cased; node_types entries are kept verbatim instead. -/
theorem c3_lowercase (nodes : List WorkflowNode) :
    (∀ s ∈ (analyze_nodes nodes).integrations, strLower s = s) ∧
      (∀ s ∈ (analyze_nodes nodes).credential_types, strLower s = s) := by
  have h := analyzeFold_lower nodes ⟨[], [], false, false, false, []⟩
    (by intro s hs; cases hs) (by intro s hs; cases hs)
  constructor
  · intro s hs
    exact h.1 s (mem_sortStr.mp hs)
  · intro s hs
    exact h.2 s (mem_sortStr.mp hs)

/-- C3 witness: the amended claim evaluated on the concrete one-node
workflow whose credential key is "fooapi". -/
theorem c3_witness : strLower "fooapi" = "fooapi" :=
  (c3_lowercase nodes1).2 "fooapi" (by decide)

/-- C6: difficulty is a function of the distinct node-type count alone
(the node_types list is duplicate-free), with thresholds at 5 and 15. -/
theorem c6_difficulty (nodes nodes' : List WorkflowNode)
    (h : (analyze_nodes nodes).node_types.length = (analyze_nodes nodes').node_types.length) :
    (analyze_nodes nodes).node_types.Nodup ∧
    determine_difficulty (analyze_nodes nodes) = determine_difficulty (analyze_nodes nodes') ∧
    ((analyze_nodes nodes).node_types.length ≤ 5 →
      determine_difficulty (analyze_nodes nodes) = "beginner") ∧
    (5 < (analyze_nodes nodes).node_types.length →
      (analyze_nodes nodes).node_types.length ≤ 15 →
      determine_difficulty (analyze_nodes nodes) = "intermediate") ∧
    (15 < (analyze_nodes nodes).node_types.length →
      determine_difficulty (analyze_nodes nodes) = "advanced") := by
  have e : ∀ m : List WorkflowNode, determine_difficulty (analyze_nodes m) =
      (if (analyze_nodes m).node_types.length ≤ 5 then "beginner"
       else if (analyze_nodes m).node_types.length ≤ 15 then "intermediate"
       else "advanced") := fun m => rfl
  refine ⟨(analyze_nodes_nodup nodes).2.1, ?_, ?_, ?_, ?_⟩
  · rw [e, e, h]
  · intro h5
    rw [e, if_pos h5]
  · intro h5 h15
    rw [e, if_neg (by omega), if_pos h15]
  · intro h15
    rw [e, if_neg (by omega), if_neg (by omega)]

/-- C6 witness: a workflow with 3 distinct node types is a beginner
workflow. -/
theorem c6_witness : determine_difficulty (analyze_nodes nodes3) = "beginner" :=
  (c6_difficulty nodes3 nodes3 rfl).2.2.1 (by decide)

/-! ## Compatibility-score lemmas and claims C1, C2, C9 -/

theorem round2_div100 (n : ℕ) : round2 ((n : ℚ) / 100) = (n : ℚ) / 100 := by
  unfold round2
  rw [div_mul_cancel₀ _ (by norm_num : (100 : ℚ) ≠ 0), round_natCast]
  norm_num

theorem round2_fifth : round2 ((1:ℚ)/5) = 1/5 := by
  rw [show ((1:ℚ)/5) = ((20:ℕ):ℚ)/100 by norm_num, round2_div100]
  try norm_num

theorem round2_two_fifths : round2 ((2:ℚ)/5) = 2/5 := by
  rw [show ((2:ℚ)/5) = ((40:ℕ):ℚ)/100 by norm_num, round2_div100]
  try norm_num

theorem round2_half : round2 ((1:ℚ)/2) = 1/2 := by
  rw [show ((1:ℚ)/2) = ((50:ℕ):ℚ)/100 by norm_num, round2_div100]
  try norm_num

theorem round2_seven_tenths : round2 ((7:ℚ)/10) = 7/10 := by
  rw [show ((7:ℚ)/10) = ((70:ℕ):ℚ)/100 by norm_num, round2_div100]
  try norm_num

theorem round2_four_fifths : round2 ((4:ℚ)/5) = 4/5 := by
  rw [show ((4:ℚ)/5) = ((80:ℕ):ℚ)/100 by norm_num, round2_div100]
  try norm_num

theorem round2_one : round2 (1:ℚ) = 1 := by
  rw [show (1:ℚ) = ((100:ℕ):ℚ)/100 by norm_num, round2_div100]

/-- Every reachable compatibility score is at least 0.2: the three penalties
sum to at most 0.8 from a starting score of 1.0. -/
theorem compat_score_lower_bound (req : Requirements) (na : NodeAnalysis) :
    1/5 ≤ (analyze_compatibility req na).compatibility_score := by
  simp only [analyze_compatibility]
  split_ifs <;>
    norm_num [round2_fifth, round2_two_fifths, round2_half, round2_seven_tenths,
      round2_four_fifths, round2_one]

/-- Requirements extraction when the analyzer found exactly one credential
type and it matches no local-service name. -/
theorem requirements_one_external (nodes : List WorkflowNode) (c : String)
    (hc : (analyze_nodes nodes).credential_types = [c])
    (hl : ∀ svc ∈ LOCAL_SERVICES, strContains c svc = false) :
    extract_requirements (analyze_nodes nodes) =
      ⟨[⟨c, true, false, none⟩], [], [c], "1.0.0"⟩ := by
  have hloc : LOCAL_SERVICES.any (fun svc => strContains c svc) = false := by
    rw [List.any_eq_false]
    intro svc hsvc
    simp [hl svc hsvc]
  unfold extract_requirements
  rw [hc]
  simp [List.foldl, requirementsStep, hloc, insertNoDup, sortStr, List.insertionSort,
    List.orderedInsert]

/-- Compatibility analysis when the workflow needs exactly one credential,
that credential is external, and no local-AI node is present: the score is
1.0 − 0.3 − 0.3 − 0.2 = 0.2 and the status is requires_external. -/
theorem compat_one_external (nodes : List WorkflowNode) (c : String)
    (hc : (analyze_nodes nodes).credential_types = [c])
    (hl : ∀ svc ∈ LOCAL_SERVICES, strContains c svc = false)
    (hai : (analyze_nodes nodes).has_local_ai = false) :
    (analyze_compatibility (extract_requirements (analyze_nodes nodes))
        (analyze_nodes nodes)).compatibility_score = 1/5 ∧
    (analyze_compatibility (extract_requirements (analyze_nodes nodes))
        (analyze_nodes nodes)).status = "requires_external" ∧
    (analyze_compatibility (extract_requirements (analyze_nodes nodes))
        (analyze_nodes nodes)).pozi_compatible = false := by
  rw [requirements_one_external nodes c hc hl]
  simp only [analyze_compatibility, hai]
  norm_num
  exact round2_fifth

/-- C1 counterexample: the concrete workflow nodes1 satisfies every
hypothesis of the claim (one credential type, external, no local AI), yet
its compatibility_score is not 0.4: the zero-local-services penalty of 0.2
also applies and the score is 0.2. -/
theorem c1_counterexample :
    (analyze_nodes nodes1).credential_types = ["fooapi"] ∧
    (∀ svc ∈ LOCAL_SERVICES, strContains "fooapi" svc = false) ∧
    (analyze_nodes nodes1).has_local_ai = false ∧
    (analyze_compatibility (extract_requirements (analyze_nodes nodes1))
        (analyze_nodes nodes1)).compatibility_score ≠ 2/5 := by
  refine ⟨by decide, by decide, by decide, ?_⟩
  rw [(compat_one_external nodes1 "fooapi" (by decide) (by decide) (by decide)).1]
  norm_num

/-- C1 (amended): for every workflow whose nodes yield exactly one
credential type that matches no local-service name and no local-AI node
type, the compatibility scorer returns compatibility_score = 0.2 (the
external-API penalty, the no-local-AI penalty and the zero-local-services
penalty all apply), status = requires_external, and pozi_compatible =
false. -/
theorem c1_external_only (nodes : List WorkflowNode) (c : String)
    (hc : (analyze_nodes nodes).credential_types = [c])
    (hl : ∀ svc ∈ LOCAL_SERVICES, strContains c svc = false)
    (hai : (analyze_nodes nodes).has_local_ai = false) :
    (analyze_compatibility (extract_requirements (analyze_nodes nodes))
        (analyze_nodes nodes)).compatibility_score = 1/5 ∧
    (analyze_compatibility (extract_requirements (analyze_nodes nodes))
        (analyze_nodes nodes)).status = "requires_external" ∧
    (analyze_compatibility (extract_requirements (analyze_nodes nodes))
        (analyze_nodes nodes)).pozi_compatible = false :=
  compat_one_external nodes c hc hl hai

/-- C1 witness: the amended claim evaluated on the concrete one-node
workflow with the single external credential "fooapi". -/
theorem c1_witness :
    (analyze_compatibility (extract_requirements (analyze_nodes nodes1))
        (analyze_nodes nodes1)).compatibility_score = 1/5 ∧
    (analyze_compatibility (extract_requirements (analyze_nodes nodes1))
        (analyze_nodes nodes1)).status = "requires_external" ∧
    (analyze_compatibility (extract_requirements (analyze_nodes nodes1))
        (analyze_nodes nodes1)).pozi_compatible = false :=
  c1_external_only nodes1 "fooapi" (by decide) (by decide) (by decide)

/-- C2 counterexample: the claim asserts some feature set makes the scoring
formula yield a score strictly below 0; in fact no requirements/analysis
input does, because the penalties sum to at most 0.8. -/
theorem c2_counterexample :
    ¬ ∃ (req : Requirements) (na : NodeAnalysis),
        (analyze_compatibility req na).compatibility_score < 0 := by
  rintro ⟨req, na, hlt⟩
  have h := compat_score_lower_bound req na
  linarith

/-- C2 (amended): stacking all three penalties yields the minimum score
0.2, attained by the concrete workflow nodes1; the scoring formula never
yields a score below 0 (nor below 0.2). -/
theorem c2_min_score :
    (∀ (req : Requirements) (na : NodeAnalysis),
      1/5 ≤ (analyze_compatibility req na).compatibility_score) ∧
    (analyze_compatibility (extract_requirements (analyze_nodes nodes1))
        (analyze_nodes nodes1)).compatibility_score = 1/5 :=
  ⟨compat_score_lower_bound,
   (compat_one_external nodes1 "fooapi" (by decide) (by decide) (by decide)).1⟩

/-- C9: the compatibility analysis never returns status incompatible: with
no external API the score is at least 0.8, so a score below 0.5 implies
requires_external_api, making the final else-branch unreachable. -/
theorem c9_no_incompatible (req : Requirements) (na : NodeAnalysis) :
    (analyze_compatibility req na).status ≠ "incompatible" ∧
    (req.external_apis = [] → 4/5 ≤ (analyze_compatibility req na).compatibility_score) ∧
    ((analyze_compatibility req na).compatibility_score < 1/2 →
      (analyze_compatibility req na).requires_external_api = true) := by
  by_cases h1 : 0 < req.external_apis.length
  · have hd := decide_eq_true h1
    cases hlai : na.has_local_ai <;> by_cases h3 : req.services.length = 0 <;>
      · simp only [analyze_compatibility, hlai, hd]
        norm_num [h3, round2_fifth, round2_two_fifths, round2_half, round2_seven_tenths,
          round2_four_fifths, round2_one]
        refine ⟨by decide, fun he => ?_⟩
        rw [he] at h1
        simp at h1
  · have hd := decide_eq_false h1
    by_cases h3 : req.services.length = 0 <;>
      · simp only [analyze_compatibility, hd]
        norm_num [h3, round2_fifth, round2_two_fifths, round2_half, round2_seven_tenths,
          round2_four_fifths, round2_one]
        try exact (by decide)

/-- C9 witness: the guarantee evaluated at two concrete inputs, one with no
external API (score 0.8) and one whose score 0.2 forces
requires_external_api. -/
theorem c9_witness :
    (analyze_compatibility (extract_requirements (analyze_nodes nodes3))
        (analyze_nodes nodes3)).status ≠ "incompatible" ∧
    4/5 ≤ (analyze_compatibility (extract_requirements (analyze_nodes nodes3))
        (analyze_nodes nodes3)).compatibility_score ∧
    (analyze_compatibility (extract_requirements (analyze_nodes nodes1))
        (analyze_nodes nodes1)).requires_external_api = true :=
  ⟨(c9_no_incompatible _ _).1,
   (c9_no_incompatible _ _).2.1 (by decide),
   (c9_no_incompatible _ _).2.2
     (by
       rw [(compat_one_external nodes1 "fooapi" (by decide) (by decide) (by decide)).1]
       norm_num)⟩

/-! ## Claims C8 and C10 -/

/-- C8 counterexample: parse_workflow stamps created_at and updated_at from
two separate datetime.utcnow() calls; when the clock ticks between them the
two fields differ, so they are not always equal. -/
theorem c8_counterexample :
    (parse_workflow "id0" "2024-01-01T00:00:00.000001" "2024-01-01T00:00:00.000002"
        "p.json" "p" "alice/repo" data0).created_at ≠
      (parse_workflow "id0" "2024-01-01T00:00:00.000001" "2024-01-01T00:00:00.000002"
        "p.json" "p" "alice/repo" data0).updated_at := by
  decide

/-- C8 (amended): every record built by parse_workflow has last_synced
unset; created_at and updated_at are the first and second clock reading
taken during construction, so they are equal exactly when those two
readings coincide. -/
theorem c8_timestamps (wid t_created t_updated json_path stem source_repo : String)
    (data : WorkflowData) :
    (parse_workflow wid t_created t_updated json_path stem source_repo data).last_synced
        = none ∧
    (parse_workflow wid t_created t_updated json_path stem source_repo data).created_at
        = t_created ∧
    (parse_workflow wid t_created t_updated json_path stem source_repo data).updated_at
        = t_updated ∧
    (t_created = t_updated →
      (parse_workflow wid t_created t_updated json_path stem source_repo data).created_at
        = (parse_workflow wid t_created t_updated json_path stem source_repo data).updated_at) :=
  ⟨rfl, rfl, rfl, fun h => h⟩

/-- C8 witness: with coinciding clock readings the two timestamps agree on
the concrete document data0. -/
theorem c8_witness :
    (parse_workflow "id0" "2024-01-01T00:00:00" "2024-01-01T00:00:00"
        "p.json" "p" "alice/repo" data0).created_at =
      (parse_workflow "id0" "2024-01-01T00:00:00" "2024-01-01T00:00:00"
        "p.json" "p" "alice/repo" data0).updated_at :=
  (c8_timestamps "id0" "2024-01-01T00:00:00" "2024-01-01T00:00:00"
    "p.json" "p" "alice/repo" data0).2.2.2 rfl

/-- C10: updating stats for an id that matches no stored row is a no-op
that reports nothing: the function leaves every stored row unchanged (and
its Python original returns None either way, with no not-found signal). -/
theorem c10_update_missing_id (db : List Row) (workflow_id : String)
    (import_count : Option Int) (success_rate : Option ℚ) (t_update : String)
    (h : ∀ row ∈ db, row.id ≠ workflow_id) :
    update_workflow_stats db workflow_id import_count success_rate t_update = db := by
  unfold update_workflow_stats
  split_ifs with h0
  · rfl
  · rw [List.map_congr_left (fun row hr => if_neg (h row hr))]
    simp

/-- C7: the integrations, node_types and credential_types lists returned by
the node analyzer are sorted ascending (string order) and duplicate-free. -/
theorem c7_sorted_nodup (nodes : List WorkflowNode) :
    (List.Sorted (· ≤ ·) (analyze_nodes nodes).integrations ∧
      (analyze_nodes nodes).integrations.Nodup) ∧
    (List.Sorted (· ≤ ·) (analyze_nodes nodes).node_types ∧
      (analyze_nodes nodes).node_types.Nodup) ∧
    (List.Sorted (· ≤ ·) (analyze_nodes nodes).credential_types ∧
      (analyze_nodes nodes).credential_types.Nodup) := by
  have h := analyze_nodes_nodup nodes
  exact ⟨⟨sortStr_sorted _, h.1⟩, ⟨sortStr_sorted _, h.2.1⟩, ⟨sortStr_sorted _, h.2.2⟩⟩


/-! ## JSON decoding lemmas: the escape encoding is uniquely decodable, so
the row serialization used by insert_workflow is injective (claim C5). -/

theorem hexVal_hexDig (k : Nat) (h : k < 16) : hexVal (hexDig k) = k := by
  unfold hexDig
  split_ifs with h10
  · have ht : (Char.ofNat (48 + k)).toNat = 48 + k := toNat_ofNat_valid (Or.inl (by omega))
    unfold hexVal
    rw [ht, if_pos (by omega)]
    omega
  · have ht : (Char.ofNat (87 + k)).toNat = 87 + k := toNat_ofNat_valid (Or.inl (by omega))
    unfold hexVal
    rw [ht, if_neg (by omega), if_pos (by omega)]
    omega

theorem toHex4_val (n : Nat) (hn : n < 0x10000) :
    4096 * hexVal (hexDig (n / 4096 % 16)) + 256 * hexVal (hexDig (n / 256 % 16)) +
      16 * hexVal (hexDig (n / 16 % 16)) + hexVal (hexDig (n % 16)) = n := by
  rw [hexVal_hexDig _ (Nat.mod_lt _ (by norm_num)),
    hexVal_hexDig _ (Nat.mod_lt _ (by norm_num)),
    hexVal_hexDig _ (Nat.mod_lt _ (by norm_num)),
    hexVal_hexDig _ (Nat.mod_lt _ (by norm_num))]
  omega

theorem step_backslash (e : Char) (r : List Char) : step ('\\' :: e :: r) = stepEsc e r := rfl

theorem stepEsc_u (r : List Char) : stepEsc 'u' r = stepU r := rfl

theorem stepU_cons (d1 d2 d3 d4 : Char) (t : List Char) :
    stepU (d1 :: d2 :: d3 :: d4 :: t) =
      (if 0xd800 ≤ 4096 * hexVal d1 + 256 * hexVal d2 + 16 * hexVal d3 + hexVal d4 ∧
          4096 * hexVal d1 + 256 * hexVal d2 + 16 * hexVal d3 + hexVal d4 ≤ 0xdbff then
        stepUPair (4096 * hexVal d1 + 256 * hexVal d2 + 16 * hexVal d3 + hexVal d4) t
      else
        some (Char.ofNat (4096 * hexVal d1 + 256 * hexVal d2 + 16 * hexVal d3 + hexVal d4),
          t)) := rfl

theorem stepUPair_cons (n : Nat) (g1 g2 g3 g4 : Char) (r : List Char) :
    stepUPair n ('\\' :: 'u' :: g1 :: g2 :: g3 :: g4 :: r) =
      (if 0xdc00 ≤ 4096 * hexVal g1 + 256 * hexVal g2 + 16 * hexVal g3 + hexVal g4 ∧
          4096 * hexVal g1 + 256 * hexVal g2 + 16 * hexVal g3 + hexVal g4 ≤ 0xdfff then
        some (Char.ofNat (0x10000 + 0x400 * (n - 0xd800) +
          (4096 * hexVal g1 + 256 * hexVal g2 + 16 * hexVal g3 + hexVal g4 - 0xdc00)), r)
      else none) := rfl

theorem step_other (c : Char) (h1 : ¬ c = '"') (h2 : ¬ c = '\\') (r : List Char) :
    step (c :: r) = some (c, r) := by
  simp only [step]
  rw [if_neg h1, if_neg h2]

theorem step_quote (r : List Char) : step ('"' :: r) = none := rfl

theorem step_escapeChar (c : Char) (r : List Char) :
    step (escapeChar c ++ r) = some (c, r) := by
  have hv : c.toNat < 0xd800 ∨ (0xdfff < c.toNat ∧ c.toNat < 0x110000) := c.valid
  unfold escapeChar
  split_ifs with h1 h2 h3 h4 h5 h6 h7 h8 h9
  · subst h1; rfl
  · subst h2; rfl
  · subst h3; rfl
  · subst h4; rfl
  · subst h5; rfl
  · subst h6; rfl
  · subst h7; rfl
  · exact step_other c h1 h2 r
  · simp only [toHex4, List.cons_append, List.nil_append]
    rw [step_backslash, stepEsc_u, stepU_cons, toHex4_val c.toNat h9, if_neg (by omega),
      Char.ofNat_toNat]
  · simp only [toHex4, List.cons_append, List.nil_append, List.append_assoc]
    rw [step_backslash, stepEsc_u, stepU_cons,
      toHex4_val (0xd800 + (c.toNat - 0x10000) / 0x400) (by omega),
      if_pos (by omega), stepUPair_cons,
      toHex4_val (0xdc00 + (c.toNat - 0x10000) % 0x400) (by omega),
      if_pos (by omega)]
    rw [show 0x10000 + 0x400 * ((0xd800 + (c.toNat - 0x10000) / 0x400) - 0xd800) +
        ((0xdc00 + (c.toNat - 0x10000) % 0x400) - 0xdc00) = c.toNat by omega]
    rw [Char.ofNat_toNat]

theorem escapeStr_cons_append (c : Char) (x r : List Char) :
    escapeStr (c :: x) ++ r = escapeChar c ++ (escapeStr x ++ r) := by
  simp only [escapeStr, List.append_assoc]

theorem escapeStr_det :
    ∀ x₁ x₂ r₁ r₂ : List Char,
      escapeStr x₁ ++ '"' :: r₁ = escapeStr x₂ ++ '"' :: r₂ → x₁ = x₂ ∧ r₁ = r₂ := by
  intro x₁
  induction x₁ with
  | nil =>
    intro x₂ r₁ r₂ h
    cases x₂ with
    | nil => simpa using h
    | cons c x₂ =>
      rw [escapeStr_cons_append] at h
      have hs := congrArg step h
      rw [show escapeStr [] ++ '"' :: r₁ = '"' :: r₁ from rfl, step_quote,
        step_escapeChar] at hs
      cases hs
  | cons c₁ x₁ ih =>
    intro x₂ r₁ r₂ h
    cases x₂ with
    | nil =>
      rw [escapeStr_cons_append] at h
      have hs := congrArg step h
      rw [show escapeStr [] ++ '"' :: r₂ = '"' :: r₂ from rfl, step_quote,
        step_escapeChar] at hs
      cases hs
    | cons c₂ x₂ =>
      rw [escapeStr_cons_append, escapeStr_cons_append] at h
      have hs := congrArg step h
      rw [step_escapeChar, step_escapeChar] at hs
      rw [Option.some.injEq, Prod.mk.injEq] at hs
      obtain ⟨hc, ht⟩ := hs
      obtain ⟨hx, hr⟩ := ih x₂ r₁ r₂ ht
      exact ⟨by rw [hc, hx], hr⟩

theorem stringEq_of_data {a b : String} (h : a.data = b.data) : a = b :=
  congrArg String.mk h

theorem dumpBody_cons (e : String) (es : List String) :
    dumpBody (e :: es) =
      '"' :: (escapeStr e.data ++ '"' ::
        (match es with
         | [] => []
         | _ :: _ => ',' :: ' ' :: dumpBody es)) := by
  cases es <;> simp [dumpBody]

theorem dumpBody_inj : ∀ l₁ l₂ : List String, dumpBody l₁ = dumpBody l₂ → l₁ = l₂ := by
  intro l₁
  induction l₁ with
  | nil =>
    intro l₂ h
    cases l₂ with
    | nil => rfl
    | cons e es =>
      rw [show dumpBody [] = [] from rfl, dumpBody_cons] at h
      cases h
  | cons e₁ es₁ ih =>
    intro l₂ h
    cases l₂ with
    | nil =>
      rw [show dumpBody [] = [] from rfl, dumpBody_cons] at h
      cases h
    | cons e₂ es₂ =>
      rw [dumpBody_cons, dumpBody_cons, List.cons.injEq] at h
      obtain ⟨-, h⟩ := h
      obtain ⟨hdata, hsep⟩ := escapeStr_det _ _ _ _ h
      have he : e₁ = e₂ := stringEq_of_data hdata
      subst he
      cases es₁ with
      | nil =>
        cases es₂ with
        | nil => rfl
        | cons f fs => cases hsep
      | cons f₁ fs₁ =>
        cases es₂ with
        | nil => cases hsep
        | cons f₂ fs₂ =>
          rw [List.cons.injEq, List.cons.injEq] at hsep
          have := ih (f₂ :: fs₂) hsep.2.2
          rw [this]

theorem jsonDumpsList_inj {l₁ l₂ : List String}
    (h : jsonDumpsList l₁ = jsonDumpsList l₂) : l₁ = l₂ := by
  have hd : ('[' :: dumpBody l₁ ++ [']'] : List Char) = '[' :: dumpBody l₂ ++ [']'] :=
    congrArg String.data h
  injection hd with hd1 hd2
  have := List.append_inj' hd2 rfl
  exact dumpBody_inj _ _ this.1

theorem jsonString_data_append (t : String) (X : List Char) :
    (jsonString t).data ++ X = '"' :: (escapeStr t.data ++ '"' :: X) := by
  show ('"' :: escapeStr t.data ++ ['"']) ++ X = _
  simp [List.append_assoc]

theorem boolStr_det (b₁ b₂ : Bool) (X₁ X₂ : List Char)
    (h : (if b₁ then "true" else "false").data ++ X₁ =
      (if b₂ then "true" else "false").data ++ X₂) :
    b₁ = b₂ ∧ X₁ = X₂ := by
  cases b₁ <;> cases b₂ <;>
    simp only [if_true, if_false, Bool.false_eq_true, Bool.true_eq_false, ite_true,
      ite_false] at h <;>
    first
    | exact ⟨rfl, List.append_inj_right h rfl⟩
    | simp at h

theorem descStr_det (d₁ d₂ : Option String) (X₁ X₂ : List Char)
    (h : (jsonNullOrString d₁).data ++ X₁ = (jsonNullOrString d₂).data ++ X₂) :
    d₁ = d₂ ∧ X₁ = X₂ := by
  cases d₁ with
  | none =>
    cases d₂ with
    | none =>
      simp only [jsonNullOrString] at h
      exact ⟨rfl, List.append_inj_right h rfl⟩
    | some s₂ =>
      simp only [jsonNullOrString] at h
      rw [jsonString_data_append] at h
      simp at h
  | some s₁ =>
    cases d₂ with
    | none =>
      simp only [jsonNullOrString] at h
      rw [jsonString_data_append] at h
      simp at h
    | some s₂ =>
      simp only [jsonNullOrString] at h
      rw [jsonString_data_append, jsonString_data_append] at h
      injection h with _ h
      obtain ⟨hs, hX⟩ := escapeStr_det _ _ _ _ h
      exact ⟨congrArg some (stringEq_of_data hs), hX⟩

theorem encodeCred_det (c₁ c₂ : Credential) (r₁ r₂ : List Char)
    (h : encodeCred c₁ ++ r₁ = encodeCred c₂ ++ r₂) : c₁ = c₂ ∧ r₁ = r₂ := by
  unfold encodeCred at h
  simp only [List.append_assoc] at h
  have h := List.append_inj_right h rfl
  rw [jsonString_data_append, jsonString_data_append] at h
  injection h with _ h
  obtain ⟨htype, h⟩ := escapeStr_det _ _ _ _ h
  have h := List.append_inj_right h rfl
  obtain ⟨hreq, h⟩ := boolStr_det _ _ _ _ h
  have h := List.append_inj_right h rfl
  obtain ⟨hloc, h⟩ := boolStr_det _ _ _ _ h
  have h := List.append_inj_right h rfl
  obtain ⟨hdesc, h⟩ := descStr_det _ _ _ _ h
  have hr := List.append_inj_right h rfl
  refine ⟨?_, hr⟩
  cases c₁
  cases c₂
  simp only [Credential.mk.injEq]
  exact ⟨stringEq_of_data htype, hreq, hloc, hdesc⟩

theorem credBody_cons (c : Credential) (cs : List Credential) :
    credBody (c :: cs) = encodeCred c ++
      (match cs with
       | [] => []
       | _ :: _ => ',' :: ' ' :: credBody cs) := by
  cases cs <;> simp [credBody]

theorem credBody_inj : ∀ l₁ l₂ : List Credential, credBody l₁ = credBody l₂ → l₁ = l₂ := by
  intro l₁
  induction l₁ with
  | nil =>
    intro l₂ h
    cases l₂ with
    | nil => rfl
    | cons c cs =>
      rw [show credBody [] = [] from rfl, credBody_cons] at h
      simp [encodeCred] at h
  | cons c₁ cs₁ ih =>
    intro l₂ h
    cases l₂ with
    | nil =>
      rw [show credBody [] = [] from rfl, credBody_cons] at h
      simp [encodeCred] at h
    | cons c₂ cs₂ =>
      rw [credBody_cons, credBody_cons] at h
      obtain ⟨hc, hsep⟩ := encodeCred_det _ _ _ _ h
      subst hc
      cases cs₁ with
      | nil =>
        cases cs₂ with
        | nil => rfl
        | cons f fs => cases hsep
      | cons f₁ fs₁ =>
        cases cs₂ with
        | nil => cases hsep
        | cons f₂ fs₂ =>
          rw [List.cons.injEq, List.cons.injEq] at hsep
          have := ih (f₂ :: fs₂) hsep.2.2
          rw [this]

theorem jsonDumpsCreds_inj {l₁ l₂ : List Credential}
    (h : jsonDumpsCreds l₁ = jsonDumpsCreds l₂) : l₁ = l₂ := by
  have hd : ('[' :: credBody l₁ ++ [']'] : List Char) = '[' :: credBody l₂ ++ [']'] :=
    congrArg String.data h
  injection hd with hd1 hd2
  have := List.append_inj' hd2 rfl
  exact credBody_inj _ _ this.1

theorem boolToInt_inj {b₁ b₂ : Bool} (h : boolToInt b₁ = boolToInt b₂) : b₁ = b₂ := by
  cases b₁ <;> cases b₂ <;> simp [boolToInt] at h <;> rfl

theorem encodeRow_inj (w₁ w₂ : Workflow) (h : encodeRow w₁ = encodeRow w₂) : w₁ = w₂ := by
  obtain ⟨i1, n1, d1, c1, sc1, df1, a1, sr1, su1, j1, t1, dp1, u1, m1, rq1, cp1, st1,
    ca1, ua1, ls1⟩ := w₁
  obtain ⟨i2, n2, d2, c2, sc2, df2, a2, sr2, su2, j2, t2, dp2, u2, m2, rq2, cp2, st2,
    ca2, ua2, ls2⟩ := w₂
  obtain ⟨nc1, ig1, nt1, hw1, hs1, er1⟩ := m1
  obtain ⟨nc2, ig2, nt2, hw2, hs2, er2⟩ := m2
  obtain ⟨cr1, sv1, ea1, mv1⟩ := rq1
  obtain ⟨cr2, sv2, ea2, mv2⟩ := rq2
  obtain ⟨la1, re1, wo1, pc1, stt1, cs1⟩ := cp1
  obtain ⟨la2, re2, wo2, pc2, stt2, cs2⟩ := cp2
  obtain ⟨ps1, ic1, sra1, at1⟩ := st1
  obtain ⟨ps2, ic2, sra2, at2⟩ := st2
  simp only [encodeRow, Row.mk.injEq] at h
  obtain ⟨h1, h2, h3, h4, h5, h6, h7, h8, h9, h10, h11, h12, h13, h14, h15, h16, h17,
    h18, h19, h20, h21, h22, h23, h24, h25, h26, h27, h28, h29, h30, h31, h32, h33,
    h34, h35, h36⟩ := h
  simp only [Workflow.mk.injEq, WorkflowMetadata.mk.injEq, Requirements.mk.injEq,
    Compatibility.mk.injEq, WorkflowStats.mk.injEq]
  exact ⟨h1, h2, h3, h4, h5, h6, h7, h8, h9, h10, jsonDumpsList_inj h11, h12,
    jsonDumpsList_inj h13,
    ⟨h14, jsonDumpsList_inj h15, jsonDumpsList_inj h16, boolToInt_inj h17,
      boolToInt_inj h18, h19⟩,
    ⟨jsonDumpsCreds_inj h20, jsonDumpsList_inj h21, jsonDumpsList_inj h22, h23⟩,
    ⟨boolToInt_inj h24, boolToInt_inj h25, boolToInt_inj h26, boolToInt_inj h27, h28, h29⟩,
    ⟨h30, h31, h32, h33⟩, h34, h35, h36⟩

/-- C5: after a successful insert_workflow, get_workflow on the record's id
returns exactly the stored row of that record, the row holds every field of
the record under the store's documented encodings (lists as JSON text,
booleans as 0/1), the encoding is injective so the row determines the
record in all fields, and no internal row identifier is exposed (the Row
model carries none). -/
theorem c5_round_trip (db : List Row) (r : Workflow)
    (h : (insert_workflow db r).2 = true) :
    get_workflow (insert_workflow db r).1 r.id = some (encodeRow r) ∧
    ∀ r' : Workflow, encodeRow r' = encodeRow r → r' = r := by
  refine ⟨?_, fun r' hr => encodeRow_inj r' r hr⟩
  unfold insert_workflow at h ⊢
  by_cases h0 : db.any (fun row => row.id == r.id) = true
  · rw [if_pos h0] at h
    cases h
  · rw [if_neg h0] at h ⊢
    unfold get_workflow
    have hnone : db.find? (fun row => row.id == r.id) = none := by
      rw [List.find?_eq_none]
      intro row hrow
      exact List.any_eq_false.mp (Bool.not_eq_true _ ▸ h0 : db.any
        (fun row => row.id == r.id) = false) row hrow
    rw [List.find?_append, hnone]
    simp
    rfl

/-- C5 witness: inserting the concrete record w0 into the empty store and
reading it back. -/
theorem c5_witness :
    get_workflow (insert_workflow [] w0).1 w0.id = some (encodeRow w0) ∧
    ∀ r' : Workflow, encodeRow r' = encodeRow w0 → r' = w0 :=
  c5_round_trip [] w0 rfl
/-- Unpacking of the plain-character predicate used by the C4 analysis. -/
theorem plainChar_spec {c : Char} (h : plainChar c = true) :
    0x20 ≤ c.toNat ∧ c.toNat ≤ 0x7e ∧ c ≠ '%' ∧ c ≠ '_' ∧ c ≠ '"' ∧ c ≠ '\\' ∧ c ≠ ',' ∧
      ¬(65 ≤ c.toNat ∧ c.toNat ≤ 90) := by
  unfold plainChar at h
  split_ifs at h with hc
  exact hc

theorem lowerChar_plain {c : Char} (h : plainChar c = true) : lowerChar c = c :=
  lowerChar_eq_self c (plainChar_spec h).2.2.2.2.2.2.2

theorem escapeChar_plain {c : Char} (h : plainChar c = true) : escapeChar c = [c] := by
  obtain ⟨hlo, hhi, -, -, hq, hb, -, -⟩ := plainChar_spec h
  unfold escapeChar
  rw [if_neg hq, if_neg hb,
    if_neg (fun he => by rw [he] at hlo; exact absurd hlo (by decide)),
    if_neg (fun he => by rw [he] at hlo; exact absurd hlo (by decide)),
    if_neg (fun he => by rw [he] at hlo; exact absurd hlo (by decide)),
    if_neg (fun he => by rw [he] at hlo; exact absurd hlo (by decide)),
    if_neg (fun he => by rw [he] at hlo; exact absurd hlo (by decide)),
    if_pos ⟨hlo, hhi⟩]

theorem escapeStr_plain : ∀ e : List Char, (∀ c ∈ e, plainChar c = true) → escapeStr e = e := by
  intro e
  induction e with
  | nil => intro _; rfl
  | cons c cs ih =>
    intro h
    show escapeChar c ++ escapeStr cs = c :: cs
    rw [escapeChar_plain (h c (List.mem_cons_self _ _)),
      ih (fun d hd => h d (List.mem_cons_of_mem _ hd))]
    try rfl

theorem map_lower_fixed {l : List Char} (h : ∀ c ∈ l, lowerChar c = c) :
    l.map lowerChar = l := by
  rw [List.map_congr_left h]
  simp

/-- A wildcard-free pattern followed by a trailing percent matches exactly the
texts whose case-folding starts with the case-folded pattern. -/
theorem likeMatch_append_pct (p : List Char) (hp : ∀ c ∈ p, c ≠ '%' ∧ c ≠ '_') :
    ∀ s : List Char, likeMatch (p ++ ['%']) s = true ↔
      (p.map lowerChar) <+: (s.map lowerChar) := by
  induction p with
  | nil =>
    intro s
    show likeMatch ['%'] s = true ↔ _
    simp only [List.map_nil, List.nil_prefix, iff_true]
    show (if ('%' : Char) = '%' then s.tails.any (fun suf => likeMatch [] suf)
      else _) = true
    rw [if_pos rfl]
    rw [List.any_eq_true]
    exact ⟨[], by simp [List.mem_tails], rfl⟩
  | cons c p ih =>
    intro s
    have hc := hp c (List.mem_cons_self _ _)
    have hp' : ∀ d ∈ p, d ≠ '%' ∧ d ≠ '_' := fun d hd => hp d (List.mem_cons_of_mem _ hd)
    cases s with
    | nil =>
      show likeMatch (c :: (p ++ ['%'])) [] = true ↔ _
      show (if c = '%' then List.any (List.tails []) (fun suf => likeMatch (p ++ ['%']) suf)
        else match ([] : List Char) with
          | [] => false
          | d :: ts => (c = '_' || lowerChar c = lowerChar d) && likeMatch (p ++ ['%']) ts) = true ↔ _
      rw [if_neg hc.1]
      simp
    | cons d s =>
      show likeMatch (c :: (p ++ ['%'])) (d :: s) = true ↔ _
      show (if c = '%' then (d :: s).tails.any (fun suf => likeMatch (p ++ ['%']) suf)
        else (decide (c = '_') || decide (lowerChar c = lowerChar d)) &&
          likeMatch (p ++ ['%']) s) = true ↔ _
      rw [if_neg hc.1]
      simp only [List.map_cons, List.cons_prefix_cons]
      rw [Bool.and_eq_true, Bool.or_eq_true]
      simp only [decide_eq_true_eq]
      constructor
      · rintro ⟨hcd | hcd, hm⟩
        · exact absurd hcd hc.2
        · exact ⟨hcd, (ih hp' s).mp hm⟩
      · rintro ⟨hcd, hm⟩
        exact ⟨Or.inr hcd, (ih hp' s).mpr hm⟩

/-- A percent-wrapped wildcard-free pattern matches exactly the texts whose
case-folding contains the case-folded pattern as a contiguous run. -/
theorem likeMatch_pct_wrap (p : List Char) (hp : ∀ c ∈ p, c ≠ '%' ∧ c ≠ '_')
    (s : List Char) :
    likeMatch ('%' :: (p ++ ['%'])) s = true ↔
      (p.map lowerChar) <:+: (s.map lowerChar) := by
  show (if ('%' : Char) = '%' then s.tails.any (fun suf => likeMatch (p ++ ['%']) suf)
    else _) = true ↔ _
  rw [if_pos rfl, List.any_eq_true]
  constructor
  · rintro ⟨suf, hmem, hm⟩
    have hsuf : suf <:+ s := (List.mem_tails _ _).mp hmem
    have hpre := (likeMatch_append_pct p hp suf).mp hm
    exact List.infix_iff_prefix_suffix.mpr ⟨suf.map lowerChar, hpre, hsuf.map lowerChar⟩
  · intro hinf
    obtain ⟨t, hpre, hsuf⟩ := List.infix_iff_prefix_suffix.mp hinf
    obtain ⟨pre, hpret⟩ := hsuf
    have ht : t = (s.drop pre.length).map lowerChar := by
      have h1 : (pre ++ t).drop pre.length = t := List.drop_left pre t
      rw [hpret] at h1
      rw [← h1, List.map_drop]
    refine ⟨s.drop pre.length, (List.mem_tails _ _).mpr (List.drop_suffix _ _), ?_⟩
    apply (likeMatch_append_pct p hp _).mpr
    rw [← ht]
    exact hpre

/-- Every character of the JSON array body of plain-character strings is fixed
by case-folding. -/
theorem dumpBody_lower (l : List String) (hl : ∀ e ∈ l, ∀ c ∈ e.data, plainChar c = true) :
    ∀ c ∈ dumpBody l, lowerChar c = c := by
  induction l with
  | nil => intro c hc; cases hc
  | cons e es ih =>
    intro c hc
    rw [dumpBody_cons, escapeStr_plain e.data (hl e (List.mem_cons_self _ _))] at hc
    cases es with
    | nil =>
      simp only [List.mem_cons, List.mem_append] at hc
      rcases hc with rfl | hc | rfl | hc
      · exact lowerChar_eq_self _ (by decide)
      · exact lowerChar_plain (hl e (List.mem_cons_self _ _) c hc)
      · exact lowerChar_eq_self _ (by decide)
      · cases hc
    | cons f fs =>
      simp only [List.mem_cons, List.mem_append] at hc
      rcases hc with rfl | hc | rfl | rfl | rfl | hc
      · exact lowerChar_eq_self _ (by decide)
      · exact lowerChar_plain (hl e (List.mem_cons_self _ _) c hc)
      · exact lowerChar_eq_self _ (by decide)
      · exact lowerChar_eq_self _ (by decide)
      · exact lowerChar_eq_self _ (by decide)
      · exact ih (fun e' he' => hl e' (List.mem_cons_of_mem _ he')) c hc

/-- Two quote-free runs closed by a quote and read against the same text are
identical. -/
theorem prefix_quote_det :
    ∀ m d r : List Char, '"' ∉ m → '"' ∉ d → m ++ ['"'] <+: d ++ '"' :: r → m = d := by
  intro m
  induction m with
  | nil =>
    intro d r _ hd h
    cases d with
    | nil => rfl
    | cons c d' =>
      simp only [List.nil_append, List.cons_append, List.cons_prefix_cons] at h
      exact absurd (h.1 ▸ List.mem_cons_self c d' : ('"' : Char) ∈ c :: d') hd
  | cons a m' ih =>
    intro d r hm hd h
    cases d with
    | nil =>
      simp only [List.cons_append, List.nil_append, List.cons_prefix_cons] at h
      exact absurd (h.1 ▸ List.mem_cons_self a m' : ('"' : Char) ∈ a :: m') hm
    | cons c d' =>
      simp only [List.cons_append, List.cons_prefix_cons] at h
      have := ih d' r (fun hq => hm (List.mem_cons_of_mem _ hq))
        (fun hq => hd (List.mem_cons_of_mem _ hq)) h.2
      rw [h.1, this]

/-- A quote-headed run occurring inside a quote-free prefix followed by a tail
already occurs inside the tail. -/
theorem infix_quote_skip :
    ∀ d t m : List Char, '"' ∉ d → ('"' :: m) <:+: (d ++ t) → ('"' :: m) <:+: t := by
  intro d
  induction d with
  | nil => exact fun t m _ h => h
  | cons c d' ih =>
    intro t m hd h
    rw [List.cons_append, List.infix_cons_iff] at h
    rcases h with h | h
    · rw [List.cons_prefix_cons] at h
      exact absurd (h.1 ▸ List.mem_cons_self c d' : ('"' : Char) ∈ c :: d') hd
    · exact ih t m (fun hq => hd (List.mem_cons_of_mem _ hq)) h

/-- A quoted run inside the bracketed JSON array text already sits inside the
array body. -/
theorem quote_infix_unbracket (m body : List Char)
    (h : ('"' :: m ++ ['"']) <:+: ('[' :: body ++ [']'])) :
    ('"' :: m ++ ['"']) <:+: body := by
  simp only [List.cons_append] at h
  rw [List.infix_cons_iff] at h
  rcases h with h | h
  · rw [List.cons_prefix_cons] at h
    cases h.1
  · have h2 : ('"' :: (m ++ ['"'])).reverse <:+: (']' :: body.reverse) := by
      have := List.reverse_infix.mpr h
      simpa [List.reverse_append] using this
    rw [show ('"' :: (m ++ ['"'])).reverse = '"' :: (m.reverse ++ ['"']) from by simp,
      List.infix_cons_iff] at h2
    rcases h2 with h2 | h2
    · rw [List.cons_prefix_cons] at h2
      cases h2.1
    · have h3 : ('"' :: (m ++ ['"'])).reverse <:+: body.reverse := by
        rw [show ('"' :: (m ++ ['"'])).reverse = '"' :: (m.reverse ++ ['"']) from by simp]
        exact h2
      have h4 := List.reverse_infix.mp h3
      simpa using h4

/-- Shape of the JSON array body of a one-element list. -/
theorem dumpBody_single (e : String) :
    dumpBody [e] = '"' :: (escapeStr e.data ++ ['"']) := by
  simp [dumpBody]

/-- Shape of the JSON array body of a list with at least two elements. -/
theorem dumpBody_cons2 (e f : String) (fs : List String) :
    dumpBody (e :: f :: fs) =
      '"' :: (escapeStr e.data ++ '"' :: ',' :: ' ' :: dumpBody (f :: fs)) := by
  simp [dumpBody]

/-- A quoted plain-character run contiguous inside the JSON array body of
plain-character strings is one of the dumped elements. -/
theorem quote_infix_mem :
    ∀ (l : List String) (m : List Char),
      (∀ e ∈ l, ∀ c ∈ e.data, plainChar c = true) →
      (∀ c ∈ m, plainChar c = true) →
      ('"' :: (m ++ ['"'])) <:+: dumpBody l →
      ∃ e ∈ l, e.data = m := by
  intro l
  induction l with
  | nil =>
    intro m _ _ h
    have := List.sublist_nil.mp h.sublist
    simp at this
  | cons e es ih =>
    intro m hl hm h
    have hqm : ('"' : Char) ∉ m := fun hq => (plainChar_spec (hm _ hq)).2.2.2.2.1 rfl
    have hqe : ('"' : Char) ∉ e.data := fun hq =>
      (plainChar_spec (hl e (List.mem_cons_self _ _) _ hq)).2.2.2.2.1 rfl
    cases es with
    | nil =>
      rw [dumpBody_single, escapeStr_plain e.data (hl e (List.mem_cons_self _ _)),
        List.infix_cons_iff] at h
      rcases h with h | h
      · rw [List.cons_prefix_cons] at h
        exact ⟨e, List.mem_cons_self _ _, (prefix_quote_det m e.data [] hqm hqe h.2).symm⟩
      · have h2 := infix_quote_skip e.data ['"'] (m ++ ['"']) hqe h
        have hlen := h2.length_le
        simp at hlen
    | cons f fs =>
      rw [dumpBody_cons2, escapeStr_plain e.data (hl e (List.mem_cons_self _ _)),
        List.infix_cons_iff] at h
      rcases h with h | h
      · rw [List.cons_prefix_cons] at h
        exact ⟨e, List.mem_cons_self _ _, (prefix_quote_det m e.data _ hqm hqe h.2).symm⟩
      · have h2 := infix_quote_skip e.data _ (m ++ ['"']) hqe h
        rw [List.infix_cons_iff] at h2
        rcases h2 with h2 | h2
        · rw [List.cons_prefix_cons] at h2
          have h3 := h2.2
          cases m with
          | nil =>
            rw [List.nil_append, List.cons_prefix_cons] at h3
            cases h3.1
          | cons a m' =>
            rw [List.cons_append, List.cons_prefix_cons] at h3
            exact absurd h3.1 (plainChar_spec (hm a (List.mem_cons_self _ _))).2.2.2.2.2.2.1
        · rw [List.infix_cons_iff] at h2
          rcases h2 with h2 | h2
          · rw [List.cons_prefix_cons] at h2
            cases h2.1
          · rw [List.infix_cons_iff] at h2
            rcases h2 with h2 | h2
            · rw [List.cons_prefix_cons] at h2
              cases h2.1
            · obtain ⟨x, hx, hd⟩ := ih m (fun y hy => hl y (List.mem_cons_of_mem _ hy)) hm h2
              exact ⟨x, List.mem_cons_of_mem _ hx, hd⟩

/-- C4 (amended): for a requested tag made of plain characters (printable
ASCII, no uppercase letter and none of percent, underscore, double quote,
backslash or comma), every row returned by search_workflows with that tag
filter has the tag as an exact element of its stored tags list, provided the
stored column is the JSON dump of a list of such plain strings. For other
tags the LIKE filter is coarser than exact membership. -/
theorem c4_exact_tag (fts : String → Row → Bool) (db : List Row)
    (query category difficulty : Option String) (local_ai_only : Bool)
    (tags : List String) (limit offset : Nat) (t : String) (row : Row) (l : List String)
    (ht : t ∈ tags)
    (htp : ∀ c ∈ t.data, plainChar c = true)
    (hrow : row ∈ search_workflows fts db query category difficulty local_ai_only tags
      limit offset)
    (hl : ∀ e ∈ l, ∀ c ∈ e.data, plainChar c = true)
    (htags : row.tags = jsonDumpsList l) :
    t ∈ l := by
  have h1 : row ∈ List.insertionSort searchOrder
      (db.filter (rowMatches fts query category difficulty local_ai_only tags)) :=
    List.mem_of_mem_drop (List.mem_of_mem_take hrow)
  have h2 : row ∈ db.filter (rowMatches fts query category difficulty local_ai_only tags) :=
    (List.perm_insertionSort searchOrder _).subset h1
  have h3 := (List.mem_filter.mp h2).2
  simp only [rowMatches, Bool.and_eq_true, List.all_eq_true] at h3
  have hlike := h3.2 t ht
  have hshape : (tagPattern t).data = '%' :: (('"' :: (t.data ++ ['"'])) ++ ['%']) := by
    simp [tagPattern]
  rw [hshape] at hlike
  have hp : ∀ c ∈ ('"' :: (t.data ++ ['"'])), c ≠ '%' ∧ c ≠ '_' := by
    intro c hc
    simp only [List.mem_cons, List.mem_append, List.mem_singleton, List.not_mem_nil, or_false] at hc
    rcases hc with rfl | hc | rfl
    · exact ⟨by decide, by decide⟩
    · exact ⟨(plainChar_spec (htp c hc)).2.2.1, (plainChar_spec (htp c hc)).2.2.2.1⟩
    · exact ⟨by decide, by decide⟩
  have hinf := (likeMatch_pct_wrap _ hp _).mp hlike
  rw [map_lower_fixed, map_lower_fixed] at hinf
  · rw [htags] at hinf
    have hdata : (jsonDumpsList l).data = '[' :: dumpBody l ++ [']'] := rfl
    rw [hdata] at hinf
    have hbody := quote_infix_unbracket t.data (dumpBody l) hinf
    obtain ⟨e, he, hd⟩ := quote_infix_mem l t.data hl htp hbody
    exact (stringEq_of_data hd.symm) ▸ he
  · intro c hc
    rw [htags] at hc
    have hdata : (jsonDumpsList l).data = '[' :: dumpBody l ++ [']'] := rfl
    rw [hdata] at hc
    simp only [List.cons_append, List.mem_cons, List.mem_append, List.mem_singleton, List.not_mem_nil, or_false] at hc
    rcases hc with rfl | hc | rfl
    · exact lowerChar_eq_self _ (by decide)
    · exact dumpBody_lower l hl c hc
    · exact lowerChar_eq_self _ (by decide)
  · intro c hc
    simp only [List.mem_cons, List.mem_append, List.mem_singleton, List.not_mem_nil, or_false] at hc
    rcases hc with rfl | hc | rfl
    · exact lowerChar_eq_self _ (by decide)
    · exact lowerChar_plain (htp c hc)
    · exact lowerChar_eq_self _ (by decide)

/-- C4 counterexample: filtering on the tag "%" returns the stored row whose
tags column is the JSON dump of the list containing only "x", yet "%" is not
an element of that list, so the unrestricted exact-membership reading of the
claim is false. -/
theorem c4_counterexample :
    row0 ∈ search_workflows (fun _ _ => false) [row0] none none none false ["%"] 20 0 ∧
      row0.tags = jsonDumpsList ["x"] ∧ ("%" : String) ∉ (["x"] : List String) := by
  refine ⟨?_, rfl, by decide⟩
  have e : search_workflows (fun _ _ => false) [row0] none none none false ["%"] 20 0
      = [row0] := rfl
  rw [e]
  exact List.mem_cons_self _ _

/-- C4 witness: the amended guarantee evaluated on a concrete store holding
one row tagged "x" and a search filtering on the plain tag "x". -/
theorem c4_witness : ("x" : String) ∈ (["x"] : List String) :=
  c4_exact_tag (fun _ _ => false) [row0] none none none false ["x"] 20 0 "x" row0 ["x"]
    (by decide) (by decide)
    (by
      have e : search_workflows (fun _ _ => false) [row0] none none none false ["x"] 20 0
          = [row0] := rfl
      rw [e]
      exact List.mem_cons_self _ _)
    (by decide) rfl

/-- C10 witness: the no-op guarantee evaluated on a concrete one-row store
and an id that matches no row. -/
theorem c10_witness :
    update_workflow_stats [row0] "missing-id" (some 3) none "2024-02-02" = [row0] :=
  c10_update_missing_id [row0] "missing-id" (some 3) none "2024-02-02"
    (by
      intro row hr
      rw [List.mem_singleton] at hr
      subst hr
      decide)

end Catalog
